import Mathlib

/-!
# Verification of `src/ios/fix_project.py`

Shallow embedding of the project-file patcher script.  The script reads a
text document, removes, for each stale filename, all matches of three
Python regular expressions, inserts one synthesized build-file line per
new `(filename, id)` pair in front of a hardcoded anchor string, prints a
message and writes the document back.

Documents are embedded as `List Char`.  The three regular expressions all
have the shape

    \s* \w+ \s* LIT [^\x7d]+ \x7d;      (patterns 1 and 2)
    \s* \w+ \s* LIT                     (pattern 3, LIT ends with a comma)

where `LIT` is a literal string containing the (re.escape'd, hence
literal) filename.  Matching such a pattern at a fixed start position is
deterministic maximal munch: the character classes `\s`, `\w` and the
first characters of the literal segments are pairwise disjoint, so greedy
matching with backtracking reduces to taking the maximal run at each
step.  `re.sub(pattern, '', s)` scans start positions left to right,
removes each leftmost non-overlapping match and resumes scanning directly
after it; `pySub` below implements exactly that.
-/

namespace FixProject

/-- Python `\s` on the ASCII documents at hand: space, tab, newline,
carriage return, vertical tab, form feed. -/
def isPySpace (c : Char) : Bool :=
  c = ' ' || c = '\t' || c = '\n' || c = '\r' || c = '\x0b' || c = '\x0c'

/-- Python `\w` on ASCII text: letters, digits, underscore. -/
def isPyWord (c : Char) : Bool :=
  c.isAlphanum || c = '_'

/-- The closing-brace character `\x7d`. -/
def brR : Char := '\x7d'

/-- The semicolon character. -/
def semiC : Char := ';'

/-- Abbreviation: a Lean string literal as a character list. -/
def sl (s : String) : List Char := s.toList

/-- One of the script's removal regexes, reduced to its two degrees of
freedom: the literal segment following `\s*\w+\s*`, and whether the
pattern continues with a brace-delimited body `[^\x7d]+\x7d;`
(patterns 1 and 2) or stops after the literal (pattern 3, whose literal
ends with a comma). -/
structure Pat where
  lit : List Char
  hasBody : Bool

/-- Attempt to match a removal pattern at the start of `s`.  Returns the
remaining suffix after the match on success.  Implements the
deterministic maximal-munch reading of
`\s*\w+\s*LIT` (+ optionally `[^\x7d]+\x7d;`): maximal whitespace run,
then a nonempty maximal word-character run, maximal whitespace run, the
exact literal, and for body patterns a nonempty maximal run of
non-brace characters closed by the two characters `\x7d;`. -/
def matchAt (p : Pat) (s : List Char) : Option (List Char) :=
  let s1 := s.dropWhile isPySpace
  let s2 := s1.dropWhile isPyWord
  if s2.length = s1.length then none
  else
    let s3 := s2.dropWhile isPySpace
    if p.lit.isPrefixOf s3 then
      let s4 := s3.drop p.lit.length
      if p.hasBody then
        let s5 := s4.dropWhile (fun c => !(c == brR))
        if s5.length = s4.length then none
        else
          match s5 with
          | c1 :: c2 :: r => if c1 = brR then (if c2 = semiC then some r else none) else none
          | _ => none
      else some s4
    else none

/-- Worker for `pySub`, structurally recursive on a fuel argument.
`pySub` instantiates the fuel with the document length, which always
suffices because every match consumes at least one character
(`matchAt_rest_length_lt`). -/
def pySubF (p : Pat) : Nat → List Char → List Char
  | _, [] => []
  | 0, s => s
  | fuel + 1, c :: rest =>
    match matchAt p (c :: rest) with
    | some r => pySubF p fuel r
    | none => c :: pySubF p fuel rest

/-- `re.sub(pattern, '', s)`: scan left to right, delete every leftmost
non-overlapping match, resume after each deleted match. -/
def pySub (p : Pat) (s : List Char) : List Char :=
  pySubF p s.length s

/-- Whether a removal pattern matches at some position of `s`. -/
def hasMatch (p : Pat) : List Char → Bool
  | [] => false
  | c :: rest => (matchAt p (c :: rest)).isSome || hasMatch p rest

/-- Pattern 1 of the removal loop:
`\s*\w+\s*/\* FILE in Sources \*/ = \x7b[^\x7d]+\x7d;`
(PBXBuildFile entries). -/
def pat1 (f : List Char) : Pat :=
  ⟨sl "/* " ++ f ++ sl " in Sources */ = \x7b", true⟩

/-- Pattern 2 of the removal loop:
`\s*\w+\s*/\* FILE \*/ = \x7b[^\x7d]+\x7d;` (file-reference entries). -/
def pat2 (f : List Char) : Pat :=
  ⟨sl "/* " ++ f ++ sl " */ = \x7b", true⟩

/-- Pattern 3 of the removal loop:
`\s*\w+\s*/\* FILE in Sources \*/,` (build-phase membership lines). -/
def pat3 (f : List Char) : Pat :=
  ⟨sl "/* " ++ f ++ sl " in Sources */,", false⟩

/-- One iteration of the removal loop: the three `re.sub` calls for one
stale filename, in source order. -/
def removeFile (f : List Char) (s : List Char) : List Char :=
  pySub (pat3 f) (pySub (pat2 f) (pySub (pat1 f) s))

/-- The whole removal loop over a list of stale filenames. -/
def removeAll (files : List (List Char)) (s : List Char) : List Char :=
  files.foldl (fun acc f => removeFile f acc) s

/-- Nonnegative `str.find`: index of the first occurrence of `needle`, if
any. -/
def strFindAux (needle : List Char) : List Char → Option Nat
  | [] => if needle.isEmpty then some 0 else none
  | c :: rest =>
    if needle.isPrefixOf (c :: rest) then some 0
    else (strFindAux needle rest).map (· + 1)

/-- Python `hay.find(needle)`: first index of `needle` in `hay`, or `-1`
when absent. -/
def strFind (needle hay : List Char) : Int :=
  match strFindAux needle hay with
  | some n => (n : Int)
  | none => -1

/-- Python slicing `s[:i]` for a possibly negative `i`:
a negative index counts from the end, clamped at `0`. -/
def pySliceTo (s : List Char) (i : Int) : List Char :=
  if i < 0 then s.take (s.length - (-i).toNat) else s.take i.toNat

/-- Python slicing `s[i:]` for a possibly negative `i`. -/
def pySliceFrom (s : List Char) (i : Int) : List Char :=
  if i < 0 then s.drop (s.length - (-i).toNat) else s.drop i.toNat

/-- Python `needle in hay`: plain substring membership. -/
def occursIn (needle : List Char) : List Char → Bool
  | [] => needle.isEmpty
  | c :: rest => needle.isPrefixOf (c :: rest) || occursIn needle rest

/-- Number of start positions at which `needle` occurs in the document. -/
def countOcc (needle : List Char) : List Char → Nat
  | [] => if needle.isEmpty then 1 else 0
  | c :: rest => (if needle.isPrefixOf (c :: rest) then 1 else 0) + countOcc needle rest

/-- The hardcoded anchor string of line 44: the existing
`AssistantAppApp.swift` build-file entry in front of which new entries
are inserted. -/
def anchorS : String :=
  "E2DB26FA2E53A25D00139AA3 /* AssistantAppApp.swift in Sources */ = \x7bisa = PBXBuildFile; fileRef = E2DB26F02E53A25D00139AA3 /* AssistantAppApp.swift */; \x7d;"

/-- The anchor as a character list. -/
def anchorL : List Char := sl anchorS

/-- The synthesized build-file line of line 48, from the f-string
`"\t\t\x7bfile_id\x7d_BUILD /* \x7bfilename\x7d in Sources */ = \x7b\x7bisa = PBXBuildFile; fileRef = \x7bfile_id\x7d /* \x7bfilename\x7d */; \x7d\x7d;\n"`. -/
def buildEntry (fn fid : List Char) : List Char :=
  sl "\t\t" ++ fid ++ sl "_BUILD /* " ++ fn
    ++ sl " in Sources */ = \x7bisa = PBXBuildFile; fileRef = " ++ fid
    ++ sl " /* " ++ fn ++ sl " */; \x7d;\n"

/-- The insertion loop of lines 43-49: `insert_pos` is computed once
from the document before the loop, each entry whose filename is not a
substring of the current document is spliced in at that fixed index via
`content[:insert_pos] + entry + content[insert_pos:]`. -/
def insertAll (nf : List (List Char × List Char)) (s : List Char) : List Char :=
  let ip := strFind anchorL s
  nf.foldl
    (fun acc e =>
      if occursIn e.1 acc then acc
      else pySliceTo acc ip ++ buildEntry e.1 e.2 ++ pySliceFrom acc ip) s

/-- The script's hardcoded stale-filename list (lines 10-19). -/
def oldFiles : List (List Char) :=
  [sl "AppConfiguration.swift", sl "MainAppView.swift",
   sl "AuthenticationManager.swift", sl "MessageBubbleView.swift",
   sl "APIModels.swift", sl "APIService.swift",
   sl "DebugView.swift", sl "SecurityManager.swift"]

/-- The script's hardcoded new-file list (lines 36-40). -/
def newFiles : List (List Char × List Char) :=
  [(sl "AuthManager.swift", sl "E2DB26F22E53A25D00139AA3"),
   (sl "ChatView.swift", sl "E2DB26F32E53A25D00139AA3"),
   (sl "ChatViewModel.swift", sl "E2DB26F42E53A25D00139AA3")]

/-- The full in-memory transformation of the script: the removal loop
with the hardcoded stale list followed by the insertion loop with the
hardcoded new list. -/
def patchDoc (s : List Char) : List Char :=
  insertAll newFiles (removeAll oldFiles s)

/-- Observable effects of one run, in execution order. -/
inductive Event where
  | readOk : Event
  | readErr : Event
  | printed : Event
  | wrote : Event
deriving DecidableEq, BEq

/-- The whole script as a function of the state of the target file
(`none` = missing/unreadable, `some c` = readable with content `c`),
returning the file state after the run together with the trace of
effects in source order.  A failing `open(..., 'r')` (line 6) raises an
uncaught exception, so nothing further runs and the file is untouched;
on the success path the script reads, transforms, prints the success
message (line 51) and only then writes (lines 54-55). -/
def runScript : Option (List Char) → Option (List Char) × List Event
  | none => (none, [Event.readErr])
  | some c => (some (patchDoc c), [Event.readOk, Event.printed, Event.wrote])

/-- Index of the first occurrence of an event in a trace. -/
def eventPos (e : Event) (t : List Event) : Nat :=
  t.findIdx (fun x => x == e)

/-- Whether any of the three removal patterns for filename `f` matches
somewhere in `s`: the filename is present in one of the three shapes. -/
def fileHasMatch (f s : List Char) : Bool :=
  hasMatch (pat1 f) s || hasMatch (pat2 f) s || hasMatch (pat3 f) s

/-- No filename of `L` is present in any of the three shapes in `s`. -/
def noMatches (L : List (List Char)) (s : List Char) : Bool :=
  L.all (fun f => !(fileHasMatch f s))

/-! ## Concrete documents used by the claim theorems -/

/-- A concrete project document with one build-file entry, one
file-reference entry and one build-phase-membership entry for
`OldFile.swift`, plus the anchor line. -/
def docC1 : List Char :=
  sl "/* Begin PBXBuildFile section */\n\t\tAAA1 /* OldFile.swift in Sources */ = \x7bisa = PBXBuildFile; fileRef = AAA0 /* OldFile.swift */; \x7d;\n\t\t"
    ++ anchorL
    ++ sl "\n/* End PBXBuildFile section */\n\t\tAAA0 /* OldFile.swift */ = \x7bisa = PBXFileReference; path = OldFile.swift; \x7d;\n\t\t\tAAA1 /* OldFile.swift in Sources */,\n"

/-- The patcher run on `docC1` with stale list `["OldFile.swift"]` and
new list `[("NewFile.swift", "ID1")]`. -/
def resC1 : List Char :=
  insertAll [(sl "NewFile.swift", sl "ID1")] (removeAll [sl "OldFile.swift"] docC1)

/-- The filename of the idempotence counterexample. -/
def fC3 : List Char := sl "F.swift"

/-- A document on which removal is not idempotent: the first pass
removes the build-phase-membership fragment ` B /* F.swift in Sources */,`
and thereby splices the surrounding text into a fresh build-file entry
`A /* F.swift in Sources */ = \x7bx\x7d;`, which only the second pass removes. -/
def docC3 : List Char :=
  sl "A /* F.swift B /* F.swift in Sources */, in Sources */ = \x7bx\x7d;"

/-- First filename of the commutation counterexample. -/
def aC6 : List Char := sl "a.s"

/-- Second filename of the commutation counterexample. -/
def bC6 : List Char := sl "b.s"

/-- A document on which removal for `a.s` and removal for `b.s` do not
commute: removing the `a.s` membership fragment splices the text into a
`b.s` build-file entry, which is only removed if the `b.s` pass runs
afterwards. -/
def docC6 : List Char :=
  sl "A /* b.s F /* a.s in Sources */, in Sources */ = \x7bx\x7d;"

/-! ## Helper lemmas -/

theorem isPrefixOf_append_self : ∀ (x q : List Char), x.isPrefixOf (x ++ q) = true := by
  intro x q
  induction x with
  | nil => simp [List.isPrefixOf]
  | cons a as ih => simp [List.isPrefixOf, ih]

theorem isPrefixOf_eq_append :
    ∀ (x s : List Char), x.isPrefixOf s = true → ∃ t, s = x ++ t := by
  intro x
  induction x with
  | nil => exact fun s _ => ⟨s, rfl⟩
  | cons a as ih =>
    intro s h
    cases s with
    | nil => simp [List.isPrefixOf] at h
    | cons b bs =>
      simp only [List.isPrefixOf, Bool.and_eq_true, beq_iff_eq] at h
      obtain ⟨t, ht⟩ := ih bs h.2
      exact ⟨t, by simp [h.1, ht]⟩

theorem occursIn_nil_left : ∀ (s : List Char), occursIn [] s = true := by
  intro s
  cases s with
  | nil => rfl
  | cons c rest => simp [occursIn, List.isPrefixOf]

theorem occursIn_cons_of (x r : List Char) (c : Char)
    (h : occursIn x r = true) : occursIn x (c :: r) = true := by
  simp [occursIn, h]

theorem occursIn_mid : ∀ (P x Q : List Char), occursIn x (P ++ (x ++ Q)) = true := by
  intro P x Q
  induction P with
  | nil =>
    cases x with
    | nil => simpa using occursIn_nil_left Q
    | cons a as =>
      simp only [List.nil_append, List.cons_append]
      simp [occursIn, isPrefixOf_append_self]
  | cons c P ih => simpa [occursIn] using Or.inr ih

theorem matchAt_some_append (p : Pat) (s r : List Char)
    (h : matchAt p s = some r) : ∃ u t, s = u ++ (p.lit ++ t) := by
  simp only [matchAt] at h
  split at h
  · exact absurd h (by simp)
  · split at h
    · rename_i hpre
      obtain ⟨t, ht⟩ := isPrefixOf_eq_append _ _ hpre
      refine ⟨s.takeWhile isPySpace ++ ((s.dropWhile isPySpace).takeWhile isPyWord
        ++ ((s.dropWhile isPySpace).dropWhile isPyWord).takeWhile isPySpace), t, ?_⟩
      have e1 := List.takeWhile_append_dropWhile (p := isPySpace) (l := s)
      have e2 := List.takeWhile_append_dropWhile (p := isPyWord) (l := s.dropWhile isPySpace)
      have e3 := List.takeWhile_append_dropWhile (p := isPySpace)
        (l := (s.dropWhile isPySpace).dropWhile isPyWord)
      calc s = s.takeWhile isPySpace ++ s.dropWhile isPySpace := e1.symm
        _ = s.takeWhile isPySpace ++ ((s.dropWhile isPySpace).takeWhile isPyWord
              ++ (s.dropWhile isPySpace).dropWhile isPyWord) := by rw [e2]
        _ = s.takeWhile isPySpace ++ ((s.dropWhile isPySpace).takeWhile isPyWord
              ++ (((s.dropWhile isPySpace).dropWhile isPyWord).takeWhile isPySpace
                ++ ((s.dropWhile isPySpace).dropWhile isPyWord).dropWhile isPySpace)) := by
              rw [e3]
        _ = _ := by rw [ht]; simp
    · exact absurd h (by simp)

theorem matchAt_occurs (lp f ls : List Char) (b : Bool) (s r : List Char)
    (h : matchAt ⟨lp ++ (f ++ ls), b⟩ s = some r) : occursIn f s = true := by
  obtain ⟨u, t, ht⟩ := matchAt_some_append _ _ _ h
  have : s = (u ++ lp) ++ (f ++ (ls ++ t)) := by rw [ht]; simp
  rw [this]
  exact occursIn_mid _ _ _

theorem hasMatch_occurs (lp f ls : List Char) (b : Bool) :
    ∀ (s : List Char), hasMatch ⟨lp ++ (f ++ ls), b⟩ s = true → occursIn f s = true := by
  intro s
  induction s with
  | nil => simp [hasMatch]
  | cons c rest ih =>
    intro h
    simp only [hasMatch, Bool.or_eq_true, Option.isSome_iff_exists] at h
    rcases h with ⟨r, hr⟩ | h
    · exact matchAt_occurs lp f ls b _ r hr
    · exact occursIn_cons_of _ _ _ (ih h)

theorem no_shape_of_not_occurs (f s : List Char)
    (h : occursIn f s = false) : fileHasMatch f s = false := by
  rw [← Bool.not_eq_true] at h ⊢
  intro hm
  apply h
  simp only [fileHasMatch, Bool.or_eq_true] at hm
  rcases hm with (h1 | h2) | h3
  · exact hasMatch_occurs (sl "/* ") f (sl " in Sources */ = \x7b") true s h1
  · exact hasMatch_occurs (sl "/* ") f (sl " */ = \x7b") true s h2
  · exact hasMatch_occurs (sl "/* ") f (sl " in Sources */,") false s h3

theorem pySubF_id_of_no_match (p : Pat) :
    ∀ (fuel : Nat) (s : List Char), hasMatch p s = false → pySubF p fuel s = s := by
  intro fuel
  induction fuel with
  | zero => intro s _; cases s <;> rfl
  | succ n ih =>
    intro s h
    cases s with
    | nil => rfl
    | cons c rest =>
      simp only [hasMatch, Bool.or_eq_false_iff] at h
      have hnone : matchAt p (c :: rest) = none := by
        cases hm : matchAt p (c :: rest) with
        | none => rfl
        | some r => rw [hm] at h; simp at h
      simp [pySubF, hnone, ih rest h.2]

theorem pySub_id_of_no_match (p : Pat) (s : List Char)
    (h : hasMatch p s = false) : pySub p s = s :=
  pySubF_id_of_no_match p s.length s h

theorem removeFile_id (f s : List Char)
    (h : fileHasMatch f s = false) : removeFile f s = s := by
  simp only [fileHasMatch, Bool.or_eq_false_iff] at h
  rw [removeFile, pySub_id_of_no_match _ _ h.1.1, pySub_id_of_no_match _ _ h.1.2,
    pySub_id_of_no_match _ _ h.2]

theorem removeAll_id :
    ∀ (L : List (List Char)) (s : List Char), noMatches L s = true → removeAll L s = s := by
  intro L
  induction L with
  | nil => intro s _; rfl
  | cons f rest ih =>
    intro s h
    simp only [noMatches, List.all_cons, Bool.and_eq_true, Bool.not_eq_true'] at h
    have h1 : removeFile f s = s := removeFile_id f s h.1
    have h2 : removeAll rest s = s := ih s (by simpa [noMatches] using h.2)
    simp only [removeAll, List.foldl_cons] at *
    rw [h1, h2]

theorem strFindAux_eq_none :
    ∀ (n h : List Char), occursIn n h = false → strFindAux n h = none := by
  intro n h
  induction h with
  | nil => intro ho; simpa [occursIn, strFindAux] using ho
  | cons c rest ih =>
    intro ho
    simp only [occursIn, Bool.or_eq_false_iff] at ho
    simp [strFindAux, ho.1, ih ho.2]

theorem strFindAux_some_drop :
    ∀ (h : List Char) (n : List Char) (k : Nat), strFindAux n h = some k →
      n.isPrefixOf (h.drop k) = true := by
  intro h
  induction h with
  | nil =>
    intro n k hf
    simp only [strFindAux] at hf
    split at hf
    · rename_i he
      cases hf
      cases n with
      | nil => rfl
      | cons a as => simp [List.isEmpty] at he
    · cases hf
  | cons c rest ih =>
    intro n k hf
    simp only [strFindAux] at hf
    split at hf
    · rename_i hp
      cases hf
      simpa using hp
    · simp only [Option.map_eq_some'] at hf
      obtain ⟨k1, hk1, hk⟩ := hf
      subst hk
      simpa using ih n k1 hk1

theorem occursIn_strFindAux_isSome :
    ∀ (h n : List Char), occursIn n h = true → ∃ k, strFindAux n h = some k := by
  intro h
  induction h with
  | nil =>
    intro n ho
    simp only [occursIn] at ho
    exact ⟨0, by simp [strFindAux, ho]⟩
  | cons c rest ih =>
    intro n ho
    simp only [occursIn, Bool.or_eq_true] at ho
    by_cases hp : n.isPrefixOf (c :: rest) = true
    · exact ⟨0, by simp [strFindAux, hp]⟩
    · rcases ho with h1 | h2
      · exact absurd h1 hp
      · obtain ⟨k, hk⟩ := ih n h2
        exact ⟨k + 1, by simp [strFindAux, hp, hk]⟩

theorem occursIn_buildEntry_context (A B fn fid : List Char) :
    occursIn fn (A ++ (buildEntry fn fid ++ B)) = true := by
  have h2 : A ++ (buildEntry fn fid ++ B)
      = (A ++ (sl "\t\t" ++ (fid ++ sl "_BUILD /* ")))
        ++ (fn ++ (sl " in Sources */ = \x7bisa = PBXBuildFile; fileRef = "
          ++ (fid ++ (sl " /* " ++ (fn ++ (sl " */; \x7d;\n" ++ B)))))) := by
    simp [buildEntry]
  rw [h2]
  exact occursIn_mid _ _ _

/-! ## Claim theorems -/

set_option maxRecDepth 100000 in
/-- C1: end-to-end scenario.  On a document containing one build-file
entry, one file-reference entry and one build-phase-membership entry for
`OldFile.swift` plus the anchor line, running the patcher with stale
list `["OldFile.swift"]` and new list `[("NewFile.swift", "ID1")]`
yields a document with zero mentions of `OldFile.swift` and exactly one
new build-file declaration line for `NewFile.swift`, placed directly
before the anchor line. -/
theorem C1_end_to_end_scenario :
    occursIn (sl "OldFile.swift") resC1 = false ∧
    countOcc (buildEntry (sl "NewFile.swift") (sl "ID1")) resC1 = 1 ∧
    resC1 = sl "/* Begin PBXBuildFile section */\n\t\t"
      ++ buildEntry (sl "NewFile.swift") (sl "ID1")
      ++ anchorL ++ sl "\n/* End PBXBuildFile section */\n" := by
  refine ⟨by decide, by decide, by decide⟩

/-- C2 counterexample: on the anchor-free document `"AB"`, the entry is
not inserted at position 0 (the very beginning) of the document. -/
theorem C2_counterexample_not_position_zero :
    occursIn anchorL (sl "AB") = false ∧
    ¬ (insertAll [(sl "NewFile.swift", sl "ID1")] (sl "AB")
        = buildEntry (sl "NewFile.swift") (sl "ID1") ++ sl "AB") := by
  refine ⟨by decide, by decide⟩

/-- C2 (amended): on every document without the anchor substring the
insertion step raises no error, and an entry whose filename is absent is
spliced in immediately before the final character of the document
(`content.find` returns the sentinel `-1` and Python slicing with `-1`
cuts before the last character; position 0 is hit only for the empty
document); no existing data is lost. -/
theorem C2_missing_anchor_inserts_before_last_char (s fn fid : List Char)
    (hAnchor : occursIn anchorL s = false) (hfn : occursIn fn s = false) :
    insertAll [(fn, fid)] s
      = s.take (s.length - 1) ++ buildEntry fn fid ++ s.drop (s.length - 1) ∧
    s.take (s.length - 1) ++ s.drop (s.length - 1) = s := by
  constructor
  · have hf : strFind anchorL s = -1 := by
      simp [strFind, strFindAux_eq_none _ _ hAnchor]
    have hlt : (-1 : Int) < 0 := by decide
    simp only [insertAll, List.foldl_cons, List.foldl_nil, hf, hfn, Bool.false_eq_true,
      if_false, pySliceTo, pySliceFrom, if_pos hlt]
    rfl
  · exact List.take_append_drop _ _

/-- C2 witness: the amended statement at the concrete anchor-free
document `"QR"`. -/
theorem C2_missing_anchor_witness :
    occursIn anchorL (sl "QR") = false ∧
    occursIn (sl "Foo.swift") (sl "QR") = false ∧
    (insertAll [(sl "Foo.swift", sl "XYZ123")] (sl "QR")
      = (sl "QR").take ((sl "QR").length - 1) ++ buildEntry (sl "Foo.swift") (sl "XYZ123")
        ++ (sl "QR").drop ((sl "QR").length - 1) ∧
     (sl "QR").take ((sl "QR").length - 1) ++ (sl "QR").drop ((sl "QR").length - 1) = sl "QR") :=
  ⟨by decide, by decide,
    C2_missing_anchor_inserts_before_last_char (sl "QR") (sl "Foo.swift") (sl "XYZ123")
      (by decide) (by decide)⟩

/-- C3 counterexample: applying the removal step twice to `docC3`
differs from applying it once. -/
theorem C3_counterexample_not_idempotent :
    ¬ (removeAll [fC3] (removeAll [fC3] docC3) = removeAll [fC3] docC3) := by
  decide

/-- C3 (amended): removal is not idempotent in general, because deleting
a match can splice the surrounding text into a new match; it is
idempotent whenever the once-removed document no longer contains a match
of any of the three patterns for any stale filename. -/
theorem C3_removal_idempotent_when_stable (L : List (List Char)) (D : List Char)
    (h : noMatches L (removeAll L D) = true) :
    removeAll L (removeAll L D) = removeAll L D :=
  removeAll_id L (removeAll L D) h

/-- C3 witness: the amended statement at a concrete document. -/
theorem C3_removal_idempotent_witness :
    noMatches [sl "F.swift"] (removeAll [sl "F.swift"] (sl "hello")) = true ∧
    removeAll [sl "F.swift"] (removeAll [sl "F.swift"] (sl "hello"))
      = removeAll [sl "F.swift"] (sl "hello") :=
  ⟨by decide, C3_removal_idempotent_when_stable [sl "F.swift"] (sl "hello") (by decide)⟩

/-- C4: the insertion step skips every entry whose filename already
occurs in the current document, so it adds no declaration line for such
an entry, and re-running the insertion step for an entry after it has
run once adds no second declaration line (the inserted line itself
contains the filename, so the re-run skips the entry). -/
theorem C4_no_duplicate_insertion (d fn fid : List Char)
    (rest : List (List Char × List Char)) :
    (occursIn fn d = true → insertAll ((fn, fid) :: rest) d = insertAll rest d) ∧
    insertAll [(fn, fid)] (insertAll [(fn, fid)] d) = insertAll [(fn, fid)] d := by
  constructor
  · intro h
    simp only [insertAll, List.foldl_cons, h, if_true]
  · by_cases h : occursIn fn d = true
    · have h1 : insertAll [(fn, fid)] d = d := by
        simp only [insertAll, List.foldl_cons, List.foldl_nil, h, if_true]
      rw [h1]
      exact h1
    · have h1 : insertAll [(fn, fid)] d
          = pySliceTo d (strFind anchorL d) ++ (buildEntry fn fid
            ++ pySliceFrom d (strFind anchorL d)) := by
        simp only [insertAll, List.foldl_cons, List.foldl_nil, h, Bool.false_eq_true, if_false,
          List.append_assoc]
      rw [h1]
      have hocc := occursIn_buildEntry_context (pySliceTo d (strFind anchorL d))
        (pySliceFrom d (strFind anchorL d)) fn fid
      simp only [insertAll, List.foldl_cons, List.foldl_nil, hocc, if_true]

/-- C4 witness: the two parts at a concrete document containing
`Foo.swift`. -/
theorem C4_no_duplicate_insertion_witness :
    occursIn (sl "Foo.swift") (sl "xx Foo.swift yy") = true ∧
    insertAll [(sl "Foo.swift", sl "ID9")] (sl "xx Foo.swift yy")
      = insertAll [] (sl "xx Foo.swift yy") ∧
    insertAll [(sl "Foo.swift", sl "ID9")]
        (insertAll [(sl "Foo.swift", sl "ID9")] (sl "xx Foo.swift yy"))
      = insertAll [(sl "Foo.swift", sl "ID9")] (sl "xx Foo.swift yy") :=
  ⟨by decide,
    (C4_no_duplicate_insertion (sl "xx Foo.swift yy") (sl "Foo.swift") (sl "ID9") []).1
      (by decide),
    (C4_no_duplicate_insertion (sl "xx Foo.swift yy") (sl "Foo.swift") (sl "ID9") []).2⟩

/-- C5 counterexample: in `docC3` the filename `F.swift` occurs in the
third pattern shape (build-phase membership); after the removal step a
build-file-shaped occurrence (pattern 1) of the same filename is still
present, spliced together by the removal itself. -/
theorem C5_counterexample_shape_remains :
    hasMatch (pat3 fC3) docC3 = true ∧
    hasMatch (pat1 fC3) (removeAll [fC3] docC3) = true := by
  refine ⟨by decide, by decide⟩

/-- C5 (amended): after the removal step the document contains zero
occurrences of the stale filename in any of the three pattern shapes,
provided the filename no longer occurs in the once-removed document at
all; in general a removal can splice previously unmatched text into a
new pattern-shaped occurrence that survives the pass. -/
theorem C5_no_shape_when_filename_gone (d f : List Char)
    (h : occursIn f (removeAll [f] d) = false) :
    fileHasMatch f (removeAll [f] d) = false :=
  no_shape_of_not_occurs f (removeAll [f] d) h

/-- C5 witness: the amended statement at a concrete document. -/
theorem C5_no_shape_witness :
    occursIn (sl "F.swift") (removeAll [sl "F.swift"] (sl "tt")) = false ∧
    fileHasMatch (sl "F.swift") (removeAll [sl "F.swift"] (sl "tt")) = false :=
  ⟨by decide, C5_no_shape_when_filename_gone (sl "tt") (sl "F.swift") (by decide)⟩

/-- C6 counterexample: for the two distinct filenames `a.s` and `b.s`,
removing `a.s` then `b.s` differs from removing `b.s` then `a.s` on
`docC6`. -/
theorem C6_counterexample_order_sensitive :
    aC6 ≠ bC6 ∧
    ¬ (removeAll [aC6, bC6] docC6 = removeAll [bC6, aC6] docC6) := by
  refine ⟨by decide, by decide⟩

/-- C6 (amended): removal for one filename commutes with removal for
another whenever one of the filenames has no pattern match in the
original document nor in the document with the other filename removed
(its removal pass is then the identity on both); in general the two
removals do not commute, because removing one filename can splice text
into a new match for the other. -/
theorem C6_removal_commutes_when_unmatched (a b d : List Char)
    (h1 : fileHasMatch a d = false)
    (h2 : fileHasMatch a (removeFile b d) = false) :
    removeAll [a, b] d = removeAll [b, a] d := by
  have e1 : removeFile a d = d := removeFile_id a d h1
  have e2 : removeFile a (removeFile b d) = removeFile b d := removeFile_id _ _ h2
  simp only [removeAll, List.foldl_cons, List.foldl_nil, e1, e2]

/-- C6 witness: the amended statement at a concrete document containing
only a `b.s` entry. -/
theorem C6_removal_commutes_witness :
    fileHasMatch aC6 (sl "B /* b.s in Sources */ = \x7by\x7d;") = false ∧
    fileHasMatch aC6 (removeFile bC6 (sl "B /* b.s in Sources */ = \x7by\x7d;")) = false ∧
    removeAll [aC6, bC6] (sl "B /* b.s in Sources */ = \x7by\x7d;")
      = removeAll [bC6, aC6] (sl "B /* b.s in Sources */ = \x7by\x7d;") :=
  ⟨by decide, by decide,
    C6_removal_commutes_when_unmatched aC6 bC6 (sl "B /* b.s in Sources */ = \x7by\x7d;")
      (by decide) (by decide)⟩

/-- C7: insertion anchoring and frame.  On every document containing
the anchor line, inserting a single entry whose filename is absent
splices the synthesized declaration line in at the first occurrence of
the anchor: the line appears immediately before the anchor, and the
document is otherwise unchanged (it splits as
`take k ++ inserted line ++ drop k` with `take k ++ drop k`
the original document and the anchor starting exactly at `drop k`). -/
theorem C7_insertion_anchored (d fn fid : List Char)
    (hA : occursIn anchorL d = true) (hfn : occursIn fn d = false) :
    ∃ k, strFindAux anchorL d = some k ∧
      insertAll [(fn, fid)] d = d.take k ++ buildEntry fn fid ++ d.drop k ∧
      anchorL.isPrefixOf (d.drop k) = true ∧
      d.take k ++ d.drop k = d := by
  obtain ⟨k, hk⟩ := occursIn_strFindAux_isSome d anchorL hA
  refine ⟨k, hk, ?_, strFindAux_some_drop d anchorL k hk, List.take_append_drop _ _⟩
  have hip : strFind anchorL d = (k : Int) := by simp [strFind, hk]
  have hneg : ¬ ((k : Int) < 0) := by omega
  simp only [insertAll, List.foldl_cons, List.foldl_nil, hip, hfn, Bool.false_eq_true,
    if_false, pySliceTo, pySliceFrom, hneg, Int.toNat_natCast, List.append_assoc]

/-- C7 witness: the anchored insertion at a concrete document, with the
claim's entry `("Foo.swift", "XYZ123")`. -/
theorem C7_insertion_anchored_witness :
    occursIn anchorL (sl "PQ" ++ anchorL ++ sl "\nRS") = true ∧
    occursIn (sl "Foo.swift") (sl "PQ" ++ anchorL ++ sl "\nRS") = false ∧
    (∃ k, strFindAux anchorL (sl "PQ" ++ anchorL ++ sl "\nRS") = some k ∧
      insertAll [(sl "Foo.swift", sl "XYZ123")] (sl "PQ" ++ anchorL ++ sl "\nRS")
        = (sl "PQ" ++ anchorL ++ sl "\nRS").take k
          ++ buildEntry (sl "Foo.swift") (sl "XYZ123")
          ++ (sl "PQ" ++ anchorL ++ sl "\nRS").drop k ∧
      anchorL.isPrefixOf ((sl "PQ" ++ anchorL ++ sl "\nRS").drop k) = true ∧
      (sl "PQ" ++ anchorL ++ sl "\nRS").take k
        ++ (sl "PQ" ++ anchorL ++ sl "\nRS").drop k = sl "PQ" ++ anchorL ++ sl "\nRS") :=
  ⟨by decide, by decide,
    C7_insertion_anchored (sl "PQ" ++ anchorL ++ sl "\nRS") (sl "Foo.swift") (sl "XYZ123")
      (by decide) (by decide)⟩

/-- C8: read-failure atomicity.  When the target file is missing or
unreadable, the run fails with the read error as its only effect: no
print, no transformation result, no write, and the file state is
unchanged. -/
theorem C8_read_failure_no_write :
    runScript none = (none, [Event.readErr]) ∧
    ((runScript none).2.contains Event.wrote) = false ∧
    ((runScript none).2.contains Event.printed) = false := by
  refine ⟨by decide, by decide, by decide⟩

/-- C9 counterexample: on the success path the success message is
printed strictly before the write — the trace is
`[readOk, printed, wrote]`, so the message is not emitted after the
write as claimed. -/
theorem C9_counterexample_print_first :
    (runScript (some [])).2 = [Event.readOk, Event.printed, Event.wrote] ∧
    eventPos Event.printed (runScript (some [])).2
      < eventPos Event.wrote (runScript (some [])).2 := by
  refine ⟨by decide, by decide⟩

/-- C9 (amended): on the success path the program prints the fixed
success message immediately before performing the write; the write is
the last effect of the run. -/
theorem C9_print_then_write (d : List Char) :
    (runScript (some d)).2 = [Event.readOk, Event.printed, Event.wrote] := rfl

set_option maxRecDepth 100000 in
/-- C10: the presence check of the insertion step is a plain substring
test on the current document.  A document containing
`MyChatView.swift` makes the entry for `ChatView.swift` be skipped
(no line is added), and an entry (`w.swift`) whose filename occurs
inside the line just inserted for a previous entry (`View.swift`) is
skipped as well. -/
theorem C10_presence_is_substring_test :
    occursIn (sl "ChatView.swift") (sl "xx MyChatView.swift yy") = true ∧
    insertAll [(sl "ChatView.swift", sl "AAA1")] (sl "xx MyChatView.swift yy")
      = sl "xx MyChatView.swift yy" ∧
    occursIn (sl "w.swift") (buildEntry (sl "View.swift") (sl "ID1")) = true ∧
    insertAll [(sl "View.swift", sl "ID1"), (sl "w.swift", sl "ID2")] (sl "mm " ++ anchorL)
      = sl "mm " ++ buildEntry (sl "View.swift") (sl "ID1") ++ anchorL := by
  refine ⟨by decide, by decide, by decide, by decide⟩

end FixProject
